import Mathlib

/-!
Shallow embedding of the multi-heuristic call-target resolution engine
(`resolution-heuristics` module): variable-assignment parsing, the three
resolution heuristics, and the heuristic engine with its trace output.

JavaScript strings are modelled as Lean `String`; string primitives used by
the source (`startsWith`, `toLowerCase`, `slice`, `split`) are modelled by
structurally recursive functions over the character list so that they
evaluate on concrete inputs.
-/

namespace DefiDisco

/-- Model of the JavaScript regex character class whitespace test. -/
def jsSpace (c : Char) : Bool :=
  c == ' ' || c == '\t' || c == '\n' || c == '\r' || c == '\x0b' || c == '\x0c'

/-- Model of the JavaScript regex word-character class: ASCII letters, digits and underscore. -/
def wordChar (c : Char) : Bool :=
  c.isAlpha || c.isDigit || c == '_'

/-- Boolean list-prefix test used to model JavaScript string startsWith. -/
def isPrefixB : List Char → List Char → Bool
  | [], _ => true
  | _ :: _, [] => false
  | a :: as, b :: bs => a == b && isPrefixB as bs

/-- Model of JavaScript s.startsWith(p). -/
def jsStartsWith (s p : String) : Bool :=
  isPrefixB p.data s.data

/-- Model of JavaScript s.toLowerCase() (ASCII lowering, structurally recursive). -/
def lowerStr (s : String) : String :=
  String.mk (s.data.map Char.toLower)

/-- Model of JavaScript s.slice(1): drop the first character. -/
def strDrop1 (s : String) : String :=
  String.mk (s.data.drop 1)

/-- Model of JavaScript s.slice(0, n): take the first n characters. -/
def strTake (s : String) (n : Nat) : String :=
  String.mk (s.data.take n)

/-- Helper for splitting a string at newline characters. -/
def splitLinesAux : List Char → List Char → List String
  | [], acc => [String.mk acc.reverse]
  | c :: cs, acc =>
    if c == '\n' then String.mk acc.reverse :: splitLinesAux cs []
    else splitLinesAux cs (c :: acc)

/-- Model of JavaScript s.split('\n'). -/
def splitLines (s : String) : List String :=
  splitLinesAux s.data []

/-- Exact-key association-list lookup, modelling JavaScript object / record indexing. -/
def lookupA {β : Type} : List (String × β) → String → Option β
  | [], _ => none
  | (k, v) :: rest, key => if k == key then some v else lookupA rest key

-- ===========================================================================
-- Data model
-- ===========================================================================

/-- A value recorded for a state variable of a discovered contract: the source
only distinguishes string values from everything else (typeof value === 'string'). -/
inductive ContractValue : Type
  | str (s : String)
  | other
deriving DecidableEq, Repr

/-- Modelled from the spec: one call site under resolution (`ExternalCall` in
./types, whose declaration is outside the embedded module); fields are the
three used by the heuristics. -/
structure ExternalCall where
  storageVariable : String
  interfaceType : String
  calledFunction : String
deriving DecidableEq, Repr

/-- Modelled from the spec: one node of the discovered-contract graph
(`DiscoveredEntry` of the external discovery package), with the fields the
heuristics read: address, optional name, entry type, optional values record. -/
structure DiscoveredEntry where
  address : String
  name : Option String
  type : String
  values : Option (List (String × ContractValue))
deriving DecidableEq, Repr

/-- Modelled from the spec: the full graph snapshot (`DiscoveryOutput`):
ordered entries plus a record from contract address to ABI signature strings. -/
structure DiscoveryOutput where
  entries : List DiscoveredEntry
  abis : List (String × List String)
deriving DecidableEq, Repr

/-- The per-caller variable assignment map (JavaScript Map<string, string>),
modelled by its lookup function. -/
def AssignMap : Type := String → Option String

/-- The empty assignment map. -/
def emptyAssign : AssignMap := fun _ => none

/-- Map.set: point update of an assignment map. -/
def mapSet (m : AssignMap) (k v : String) : AssignMap :=
  fun x => if x = k then some v else m x

/-- One match produced by a heuristic: address plus optional contract name. -/
structure HeuristicMatch where
  address : String
  contractName : Option String
deriving DecidableEq, Repr

/-- Output of one heuristic: matches plus a confidence score. -/
structure HeuristicResult where
  «matches» : List HeuristicMatch
  confidence : Nat
deriving DecidableEq, Repr

/-- The shared context one resolution runs in. -/
structure HeuristicContext where
  call : ExternalCall
  callerContractAddress : String
  discovered : DiscoveryOutput
  variableAssignments : AssignMap

/-- A resolution heuristic: name, description, and its apply function. -/
structure ResolutionHeuristic where
  name : String
  description : String
  apply : HeuristicContext → Option HeuristicResult

/-- Modelled from the spec: a match as re-emitted by the engine
(`ResolutionCandidate` in ./types): address and optional contract name. -/
structure ResolutionCandidate where
  address : String
  contractName : Option String
deriving DecidableEq, Repr

/-- The engine's decision: winning heuristic name, its matches, its confidence. -/
structure HeuristicEngineResult where
  heuristicName : String
  «matches» : List ResolutionCandidate
  confidence : Nat
deriving DecidableEq, Repr

-- ===========================================================================
-- Assignment-chain parser
-- ===========================================================================

/-- Model of one line matched against the assignment regex
(an identifier, a parenthesized annotation, the token :=, a second
identifier, an opening parenthesis); returns the two captured identifiers.
The regex is deterministic because each repeated class is disjoint from the
character that follows it. -/
def matchAssign (line : String) : Option (String × String) :=
  let s0 := (line.data.span jsSpace).2
  let p1 := s0.span wordChar
  if p1.1.isEmpty then none
  else
    match p1.2 with
    | '(' :: r1 =>
      let p2 := r1.span (fun c => !(c == ')'))
      if p2.1.isEmpty then none
      else
        match p2.2 with
        | ')' :: r2 =>
          let r3 := (r2.span jsSpace).2
          match r3 with
          | ':' :: '=' :: r4 =>
            let r5 := (r4.span jsSpace).2
            let p3 := r5.span wordChar
            if p3.1.isEmpty then none
            else
              match p3.2 with
              | '(' :: _ => some (String.mk p1.1, String.mk p3.1)
              | _ => none
          | _ => none
        | _ => none
    | _ => none

/-- Processing of one IR line: a matching line sets (overwrites) the map entry
for the target identifier; any other line leaves the map unchanged. -/
def assignStep (m : AssignMap) (line : String) : AssignMap :=
  match matchAssign line with
  | some (t, s) => mapSet m t s
  | none => m

/-- parseVariableAssignments: fold the per-line step over the lines of the IR text. -/
def parseVariableAssignments (slithirOutput : String) : AssignMap :=
  (splitLines slithirOutput).foldl assignStep emptyAssign

-- ===========================================================================
-- Variable-chain heuristic
-- ===========================================================================

/-- resolveVariableChain: follow the assignment map from a variable, taking the
entry for the current name while one exists, for at most `fuel` hops
(the source iterates while assignments.has(current) and depth < maxDepth,
with maxDepth defaulting to 10). -/
def resolveVariableChain (assignments : AssignMap) : Nat → String → String
  | 0, current => current
  | fuel + 1, current =>
    match assignments current with
    | some next => resolveVariableChain assignments fuel next
    | none => current

/-- The default maximum hop count of the chain walk. -/
def maxChainDepth : Nat := 10

/-- The sequence of names visited by the chain walk (including the start,
excluding nothing): used to state the termination bound. -/
def chainTrace (assignments : AssignMap) : Nat → String → List String
  | 0, current => [current]
  | fuel + 1, current =>
    match assignments current with
    | some next => current :: chainTrace assignments fuel next
    | none => [current]

/-- A list of names is a chain of the assignment map when every element maps
to its successor. -/
def IsChain (assignments : AssignMap) : List String → Prop
  | [] => True
  | [_] => True
  | a :: b :: rest => assignments a = some b ∧ IsChain assignments (b :: rest)

/-- The last step of the variable-chain heuristic: the resolved state-variable
value resolves to a single match when it is a string starting with the address
marker; the match's contract name is the name of the graph entry found at
that address by lowercased comparison. -/
def addressValueMatch (discovered : DiscoveryOutput) (cv : ContractValue) :
    Option HeuristicResult :=
  match cv with
  | ContractValue.str value =>
    if jsStartsWith value "eth:" then
      some { «matches» := [{ address := value,
                             contractName :=
                               (discovered.entries.find? (fun e =>
                                   lowerStr e.address == lowerStr value)).bind
                                 (fun e => e.name) }],
             confidence := 100 }
    else none
  | ContractValue.other => none

/-- VariableChainHeuristic.apply: follow the chain; if it made progress, find
the caller contract by lowercased address, read the resolved variable's value,
and resolve that value to the single match when it is address-formatted. -/
def variableChainApply (context : HeuristicContext) : Option HeuristicResult :=
  let resolvedVar :=
    resolveVariableChain context.variableAssignments maxChainDepth
      context.call.storageVariable
  if resolvedVar = context.call.storageVariable then none
  else
    (context.discovered.entries.find? (fun e =>
        lowerStr e.address == lowerStr context.callerContractAddress &&
        e.type == "Contract")).bind (fun contract =>
      contract.values.bind (fun vals =>
        (lookupA vals resolvedVar).bind (addressValueMatch context.discovered)))

/-- The variable-chain heuristic object. -/
def variableChainHeuristic : ResolutionHeuristic :=
  { name := "variable-chain"
    description := "Follow variable assignment chain to state variable"
    apply := variableChainApply }

-- ===========================================================================
-- Interface-name heuristic
-- ===========================================================================

/-- InterfaceNameHeuristic.calculateConfidence. -/
def interfaceNameConfidence (matchCount : Nat) : Nat :=
  if matchCount == 1 then 90
  else if matchCount == 2 then 60
  else 40

/-- The candidate matches of the interface-name heuristic: entries of type
"Contract" whose (possibly defaulted) name equals the expected contract name
case-insensitively. -/
def interfaceNameMatches (entries : List DiscoveredEntry) (expectedContractName : String) :
    List HeuristicMatch :=
  entries.filterMap (fun entry =>
    if entry.type == "Contract" &&
        lowerStr (entry.name.getD "") == lowerStr expectedContractName then
      some { address := entry.address, contractName := entry.name }
    else none)

/-- InterfaceNameHeuristic.apply: strip the I prefix and collect contracts with
the matching name; no result when the convention does not apply or nothing matches. -/
def interfaceNameApply (context : HeuristicContext) : Option HeuristicResult :=
  let interfaceName := context.call.interfaceType
  if !(jsStartsWith interfaceName "I") || interfaceName.length ≤ 1 then none
  else
    let expectedContractName := strDrop1 interfaceName
    let ms := interfaceNameMatches context.discovered.entries expectedContractName
    if ms.isEmpty then none
    else some { «matches» := ms, confidence := interfaceNameConfidence ms.length }

/-- The interface-name heuristic object. -/
def interfaceNameHeuristic : ResolutionHeuristic :=
  { name := "interface-name"
    description := "Match interface name to contract name (strip I prefix)"
    apply := interfaceNameApply }

-- ===========================================================================
-- Function-signature heuristic
-- ===========================================================================

/-- FunctionSignatureHeuristic.calculateConfidence. -/
def functionSignatureConfidence (matchCount : Nat) : Nat :=
  if matchCount == 1 then 99
  else if matchCount == 2 then 50
  else 30

/-- The name extracted from one ABI entry by the source's check: the entry must
start with the literal "function " and then match the anchored pattern
(the word function, one or more whitespace characters, a captured identifier,
an opening parenthesis); returns the captured identifier. -/
def extractFunctionName (abiEntry : String) : Option String :=
  if jsStartsWith abiEntry "function " then
    let afterKeyword := abiEntry.data.drop 8
    let sp := afterKeyword.span jsSpace
    if sp.1.isEmpty then none
    else
      let nm := sp.2.span wordChar
      if nm.1.isEmpty then none
      else
        match nm.2 with
        | '(' :: _ => some (String.mk nm.1)
        | _ => none
  else none

/-- The candidate matches of the function-signature heuristic: entries of type
"Contract" whose ABI (when present in the record) has some entry whose
extracted function name equals the called function. -/
def functionSignatureMatches (discovered : DiscoveryOutput) (functionName : String) :
    List HeuristicMatch :=
  discovered.entries.filterMap (fun entry =>
    if entry.type == "Contract" then
      match lookupA discovered.abis entry.address with
      | none => none
      | some abi =>
        if abi.any (fun abiEntry => extractFunctionName abiEntry == some functionName) then
          some { address := entry.address, contractName := entry.name }
        else none
    else none)

/-- FunctionSignatureHeuristic.apply. -/
def functionSignatureApply (context : HeuristicContext) : Option HeuristicResult :=
  let ms := functionSignatureMatches context.discovered context.call.calledFunction
  if ms.isEmpty then none
  else some { «matches» := ms, confidence := functionSignatureConfidence ms.length }

/-- The function-signature heuristic object. -/
def functionSignatureHeuristic : ResolutionHeuristic :=
  { name := "function-signature"
    description := "Match called function to contracts with that function in ABI"
    apply := functionSignatureApply }

-- ===========================================================================
-- Heuristic engine
-- ===========================================================================

/-- The engine: holds the ordered list of registered heuristics. -/
structure HeuristicEngine where
  heuristics : List ResolutionHeuristic

/-- register: append a heuristic at the end of the list. -/
def HeuristicEngine.register (e : HeuristicEngine) (h : ResolutionHeuristic) :
    HeuristicEngine :=
  { heuristics := e.heuristics ++ [h] }

/-- The label the trace uses for one match: the contract name when present and
non-empty, otherwise the first 14 characters of the address. -/
def matchLabel (m : HeuristicMatch) : String :=
  match m.contractName with
  | some n => if n == "" then strTake m.address 14 else n
  | none => strTake m.address 14

/-- The comma-separated label list of a result's matches. -/
def matchNames (r : HeuristicResult) : String :=
  String.intercalate ", " (r.«matches».map matchLabel)

/-- The opening trace line of one resolution. -/
def resolvingMsg (context : HeuristicContext) : String :=
  "    Resolving: " ++ context.call.storageVariable ++ " → " ++
    context.call.calledFunction ++ "() [" ++ context.call.interfaceType ++ "]"

/-- The trace line emitted for a heuristic that produced a result. -/
def heuristicHitMsg (h : ResolutionHeuristic) (r : HeuristicResult) : String :=
  "      - " ++ h.name ++ ": " ++ toString r.«matches».length ++ " match(es) [" ++
    matchNames r ++ "] → confidence: " ++ toString r.confidence ++ "%"

/-- The trace line emitted for a heuristic that produced no result. -/
def heuristicMissMsg (h : ResolutionHeuristic) : String :=
  "      - " ++ h.name ++ ": no match"

/-- The closing trace line naming the winner. -/
def winnerMsg (w : ResolutionHeuristic × HeuristicResult) : String :=
  "      Winner: " ++ w.1.name ++ " (" ++ toString w.2.confidence ++ "%) → " ++
    matchNames w.2

/-- The per-heuristic results collected by the engine loop, in registration
order, each paired with its originating heuristic. -/
def runHeuristics (heuristics : List ResolutionHeuristic) (context : HeuristicContext) :
    List (ResolutionHeuristic × HeuristicResult) :=
  heuristics.filterMap (fun h => (h.apply context).map (fun r => (h, r)))

/-- The per-heuristic trace lines of the engine loop, in registration order. -/
def heuristicTraceLines (heuristics : List ResolutionHeuristic)
    (context : HeuristicContext) : List String :=
  heuristics.map (fun h =>
    match h.apply context with
    | some r => heuristicHitMsg h r
    | none => heuristicMissMsg h)

/-- Stable insertion into a list sorted by confidence descending: the inserted
element goes after every strictly more confident element and before every
element of equal or lower confidence. -/
def insertByConf (x : ResolutionHeuristic × HeuristicResult) :
    List (ResolutionHeuristic × HeuristicResult) →
    List (ResolutionHeuristic × HeuristicResult)
  | [] => [x]
  | y :: ys =>
    if y.2.confidence > x.2.confidence then y :: insertByConf x ys
    else x :: y :: ys

/-- Model of the stable sort (Array.prototype.sort with comparator
b.result.confidence - a.result.confidence): confidence descending, original
order preserved among equal confidences. -/
def sortByConfDesc :
    List (ResolutionHeuristic × HeuristicResult) →
    List (ResolutionHeuristic × HeuristicResult)
  | [] => []
  | x :: xs => insertByConf x (sortByConfDesc xs)

/-- The engine's returned decision built from the winning pair, copying each
match into a ResolutionCandidate. -/
def toEngineResult (w : ResolutionHeuristic × HeuristicResult) : HeuristicEngineResult :=
  { heuristicName := w.1.name
    «matches» := w.2.«matches».map (fun m =>
      { address := m.address, contractName := m.contractName })
    confidence := w.2.confidence }

/-- HeuristicEngine.resolve: run every heuristic in registration order, emit
one trace line per heuristic, sort the collected results by confidence
descending (stably) and return the first as the winner; the returned pair is
(decision, emitted trace lines in order). An empty sorted list occurs exactly
when no heuristic produced a result. -/
def HeuristicEngine.resolve (e : HeuristicEngine) (context : HeuristicContext) :
    Option HeuristicEngineResult × List String :=
  let results := runHeuristics e.heuristics context
  let trace := resolvingMsg context :: heuristicTraceLines e.heuristics context
  match sortByConfDesc results with
  | [] => (none, trace ++ ["      Winner: none"])
  | winner :: _ => (some (toEngineResult winner), trace ++ [winnerMsg winner])

/-- HeuristicEngine.resolveAsync: the suspending variant duplicates the same
loop, trace lines and selection; the suspension of the progress callback has
no effect on the produced values, so the embedding is the same computation. -/
def HeuristicEngine.resolveAsync (e : HeuristicEngine) (context : HeuristicContext) :
    Option HeuristicEngineResult × List String :=
  let results := runHeuristics e.heuristics context
  let trace := resolvingMsg context :: heuristicTraceLines e.heuristics context
  match sortByConfDesc results with
  | [] => (none, trace ++ ["      Winner: none"])
  | winner :: _ => (some (toEngineResult winner), trace ++ [winnerMsg winner])

/-- createHeuristicEngine: the default engine with the three heuristics
registered in order of reliability. -/
def createHeuristicEngine : HeuristicEngine :=
  (((({ heuristics := [] } : HeuristicEngine).register
      variableChainHeuristic).register
      interfaceNameHeuristic).register
      functionSignatureHeuristic)

-- ===========================================================================
-- Selection spec and casing transform (used to state the claims)
-- ===========================================================================

/-- The first element of a result list attaining the maximal confidence:
the specification of what a stable descending sort puts first. -/
def firstMaxBy : List (ResolutionHeuristic × HeuristicResult) →
    Option (ResolutionHeuristic × HeuristicResult)
  | [] => none
  | x :: xs =>
    match firstMaxBy xs with
    | none => some x
    | some y => if y.2.confidence > x.2.confidence then some y else some x

/-- Re-case every entry address of a graph snapshot through a transform. -/
def recaseEntryAddresses (f : String → String) (d : DiscoveryOutput) : DiscoveryOutput :=
  { entries := d.entries.map (fun e => { e with address := f e.address })
    abis := d.abis }

-- ===========================================================================
-- Concrete fixtures for witnesses
-- ===========================================================================

/-- A context with an empty graph and no assignments: no heuristic applies. -/
def plainCtx : HeuristicContext :=
  { call := { storageVariable := "v", interfaceType := "X", calledFunction := "f" }
    callerContractAddress := "eth:0x0"
    discovered := { entries := [], abis := [] }
    variableAssignments := emptyAssign }

/-- A fixture heuristic that always answers with a fixed confidence. -/
def constHeuristic (nm : String) (addr : String) (conf : Nat) : ResolutionHeuristic :=
  { name := nm
    description := "fixture"
    apply := fun _ =>
      some { «matches» := [{ address := addr, contractName := none }], confidence := conf } }

/-- An engine holding two fixture heuristics tied at confidence 70. -/
def tiedEngine : HeuristicEngine :=
  (({ heuristics := [] } : HeuristicEngine).register
      (constHeuristic "tied-a" "eth:0xa" 70)).register
      (constHeuristic "tied-b" "eth:0xb" 70)

/-- A cyclic assignment map: a maps to b and b maps to a. -/
def cycleMap : AssignMap := mapSet (mapSet emptyAssign "a" "b") "b" "a"

/-- The scenario-A context: a cached trove-manager variable whose chain
resolves through the caller contract's state to a discovered address. -/
def ctxScenarioA : HeuristicContext :=
  { call := { storageVariable := "troveManagerCached", interfaceType := "ITroveManager",
              calledFunction := "liquidate" }
    callerContractAddress := "eth:0xCaFe"
    discovered :=
      { entries := [ { address := "eth:0xcafe", name := some "BorrowerOps",
                       type := "Contract",
                       values := some [("troveManager", ContractValue.str "eth:0xABCD")] },
                     { address := "eth:0xabcd", name := some "TroveManager",
                       type := "Contract", values := none } ]
        abis := [] }
    variableAssignments :=
      parseVariableAssignments "troveManagerCached(ITroveManager) := troveManager(ITroveManager)" }

/-- The scenario-B context: an IVault call with one discovered Vault contract. -/
def ctxScenarioB : HeuristicContext :=
  { call := { storageVariable := "v", interfaceType := "IVault", calledFunction := "f" }
    callerContractAddress := "eth:0x1"
    discovered :=
      { entries := [ { address := "eth:0x2", name := some "Vault",
                       type := "Contract", values := none } ]
        abis := [("eth:0x2", ["function deposit(uint256)", "event Deposit(uint256)"])] }
    variableAssignments := emptyAssign }

/-- A context whose called function appears in the one discovered ABI and
whose interface type does not follow the I-prefix convention. -/
def ctxScenarioC : HeuristicContext :=
  { ctxScenarioB with
    call := { storageVariable := "v", interfaceType := "X", calledFunction := "deposit" } }

/-- Scenario B with the interface type degenerated to the bare prefix. -/
def ctxGuardI : HeuristicContext :=
  { ctxScenarioB with
    call := { storageVariable := "v", interfaceType := "I", calledFunction := "f" } }

/-- A recasing transform that changes the case of one concrete address. -/
def recaseOne : String → String :=
  fun a => if a = "eth:0xabcd" then "eth:0xABcd" else a

/-- Scenario A with no graph entry at the resolved value's address: the chain
still resolves but the match carries no contract name. -/
def ctxChainNoEntry : HeuristicContext :=
  { ctxScenarioA with
    discovered :=
      { entries := [ { address := "eth:0xcafe", name := some "BorrowerOps",
                       type := "Contract",
                       values := some [("troveManager", ContractValue.str "eth:0xABCD")] } ]
        abis := [] } }


-- ===========================================================================
-- Chain-walk lemmas
-- ===========================================================================

theorem chainTrace_shape (m : AssignMap) (fuel : Nat) (v : String) :
    ∃ tl, chainTrace m fuel v = v :: tl := by
  cases fuel with
  | zero => exact ⟨[], rfl⟩
  | succ f =>
    cases h : m v with
    | none => exact ⟨[], by simp [chainTrace, h]⟩
    | some next => exact ⟨chainTrace m f next, by simp [chainTrace, h]⟩

theorem chainTrace_length_le (m : AssignMap) :
    ∀ (fuel : Nat) (v : String), (chainTrace m fuel v).length ≤ fuel + 1 := by
  intro fuel
  induction fuel with
  | zero => intro v; simp [chainTrace]
  | succ f ih =>
    intro v
    cases h : m v with
    | none => simp [chainTrace, h]
    | some next =>
      simp only [chainTrace, h, List.length_cons]
      have := ih next
      omega

theorem chainTrace_isChain (m : AssignMap) :
    ∀ (fuel : Nat) (v : String), IsChain m (chainTrace m fuel v) := by
  intro fuel
  induction fuel with
  | zero => intro v; simp [chainTrace, IsChain]
  | succ f ih =>
    intro v
    cases h : m v with
    | none => simp [chainTrace, h, IsChain]
    | some next =>
      obtain ⟨tl, htl⟩ := chainTrace_shape m f next
      simp only [chainTrace, h, htl]
      exact ⟨h, htl ▸ ih next⟩

theorem chainTrace_getLastD (m : AssignMap) :
    ∀ (fuel : Nat) (v d : String),
      (chainTrace m fuel v).getLastD d = resolveVariableChain m fuel v := by
  intro fuel
  induction fuel with
  | zero => intro v d; simp [chainTrace, resolveVariableChain]
  | succ f ih =>
    intro v d
    cases h : m v with
    | none => simp [chainTrace, h, resolveVariableChain]
    | some next =>
      obtain ⟨tl, htl⟩ := chainTrace_shape m f next
      simp only [chainTrace, h, resolveVariableChain, List.getLastD_cons]
      exact ih next v

theorem chainTrace_early_stop (m : AssignMap) :
    ∀ (fuel : Nat) (v : String), (chainTrace m fuel v).length < fuel + 1 →
      m (resolveVariableChain m fuel v) = none := by
  intro fuel
  induction fuel with
  | zero => intro v h; simp [chainTrace] at h
  | succ f ih =>
    intro v h
    cases hm : m v with
    | none => simp [resolveVariableChain, hm]
    | some next =>
      simp only [chainTrace, hm, List.length_cons] at h
      simp only [resolveVariableChain, hm]
      exact ih next (by omega)

/-- C4: for every assignment map (cycles included) the variable-chain walk
terminates after at most 10 hops: its visited-name sequence starts at the
queried variable, has length at most 11 (hence at most 10 hops), follows the
map entry of the current name at every step, ends at the value the walk
returns, and when it is shorter than the bound the walk stopped because the
current name has no entry in the map. -/
theorem variable_chain_walk_bounded (m : AssignMap) (v : String) :
    (chainTrace m maxChainDepth v).length ≤ maxChainDepth + 1 ∧
    IsChain m (chainTrace m maxChainDepth v) ∧
    (∃ tl, chainTrace m maxChainDepth v = v :: tl) ∧
    (chainTrace m maxChainDepth v).getLastD v =
      resolveVariableChain m maxChainDepth v ∧
    ((chainTrace m maxChainDepth v).length < maxChainDepth + 1 →
      m (resolveVariableChain m maxChainDepth v) = none) := by
  exact ⟨chainTrace_length_le m maxChainDepth v,
         chainTrace_isChain m maxChainDepth v,
         chainTrace_shape m maxChainDepth v,
         chainTrace_getLastD m maxChainDepth v v,
         chainTrace_early_stop m maxChainDepth v⟩

/-- Witness for C4 on the cyclic map a maps to b, b maps to a: the walk from a
visits exactly 11 names (10 hops) and returns a. -/
theorem variable_chain_walk_bounded_witness :
    ((chainTrace cycleMap maxChainDepth "a").length ≤ maxChainDepth + 1 ∧
      IsChain cycleMap (chainTrace cycleMap maxChainDepth "a") ∧
      (∃ tl, chainTrace cycleMap maxChainDepth "a" = "a" :: tl) ∧
      (chainTrace cycleMap maxChainDepth "a").getLastD "a" =
        resolveVariableChain cycleMap maxChainDepth "a" ∧
      ((chainTrace cycleMap maxChainDepth "a").length < maxChainDepth + 1 →
        cycleMap (resolveVariableChain cycleMap maxChainDepth "a") = none)) ∧
    (chainTrace cycleMap maxChainDepth "a").length = 11 ∧
    resolveVariableChain cycleMap maxChainDepth "a" = "a" := by
  exact ⟨variable_chain_walk_bounded cycleMap "a", by decide, by decide⟩

-- ===========================================================================
-- Assignment-parser lemmas
-- ===========================================================================

theorem foldl_assignStep_preserve :
    ∀ (ls : List String) (m : AssignMap) (t : String),
      (∀ l ∈ ls, ∀ v, matchAssign l ≠ some (t, v)) →
      (ls.foldl assignStep m) t = m t := by
  intro ls
  induction ls with
  | nil => intro m t _; rfl
  | cons l rest ih =>
    intro m t hno
    have hstep : assignStep m l t = m t := by
      cases hm : matchAssign l with
      | none => simp [assignStep, hm]
      | some p =>
        obtain ⟨t', v⟩ := p
        have hne : t' ≠ t := by
          intro he
          exact hno l (List.mem_cons_self l rest) v (by rw [hm, he])
        simp only [assignStep, hm, mapSet]
        rw [if_neg (fun h => hne h.symm)]
    calc ((l :: rest).foldl assignStep m) t
        = (rest.foldl assignStep (assignStep m l)) t := rfl
      _ = assignStep m l t := ih _ t (fun l' hl' => hno l' (List.mem_cons_of_mem _ hl'))
      _ = m t := hstep

/-- C9: a line matching the assignment pattern sets the map entry for its
target identifier to its source identifier and changes nothing else; a line
not matching the pattern leaves the map unchanged; the parsed map is the fold
of this step over the split lines, so the last matching assignment for a
target in text order determines its final entry. -/
theorem parse_variable_assignments_spec :
    (∀ (m : AssignMap) (line t s : String), matchAssign line = some (t, s) →
        assignStep m line t = some s ∧ ∀ k, k ≠ t → assignStep m line k = m k) ∧
    (∀ (m : AssignMap) (line : String), matchAssign line = none →
        assignStep m line = m) ∧
    (∀ (m : AssignMap) (ls₁ : List String) (line : String) (ls₂ : List String)
        (t s : String), matchAssign line = some (t, s) →
        (∀ l ∈ ls₂, ∀ v, matchAssign l ≠ some (t, v)) →
        ((ls₁ ++ line :: ls₂).foldl assignStep m) t = some s) ∧
    (∀ out, parseVariableAssignments out = (splitLines out).foldl assignStep emptyAssign) := by
  refine ⟨?_, ?_, ?_, fun _ => rfl⟩
  · intro m line t s hm
    constructor
    · simp [assignStep, hm, mapSet]
    · intro k hk
      simp [assignStep, hm, mapSet, hk]
  · intro m line hm
    simp [assignStep, hm]
  · intro m ls₁ line ls₂ t s hm hno
    rw [List.foldl_append]
    have hcons : ((line :: ls₂).foldl assignStep (ls₁.foldl assignStep m)) =
        ls₂.foldl assignStep (assignStep (ls₁.foldl assignStep m) line) := rfl
    rw [hcons, foldl_assignStep_preserve ls₂ _ t hno]
    simp [assignStep, hm, mapSet]

/-- Witness for C9: with two assignments to x, the later one (to z) wins. -/
theorem parse_variable_assignments_spec_witness :
    matchAssign "x(T) := z(T)" = some ("x", "z") ∧
    ((["x(T) := y(T)"] ++ "x(T) := z(T)" :: []).foldl assignStep emptyAssign) "x" =
      some "z" := by
  refine ⟨by decide, ?_⟩
  exact parse_variable_assignments_spec.2.2.1 emptyAssign ["x(T) := y(T)"]
    "x(T) := z(T)" [] "x" "z" (by decide) (by simp)

-- ===========================================================================
-- Heuristic result characterizations
-- ===========================================================================

theorem variableChainApply_some {context : HeuristicContext} {r : HeuristicResult}
    (h : variableChainApply context = some r) :
    ∃ m, r = { «matches» := [m], confidence := 100 } := by
  simp only [variableChainApply] at h
  split at h
  · simp at h
  · rcases Option.bind_eq_some.mp h with ⟨contract, _, h2⟩
    rcases Option.bind_eq_some.mp h2 with ⟨vals, _, h3⟩
    rcases Option.bind_eq_some.mp h3 with ⟨cv, _, h4⟩
    cases cv with
    | other => simp [addressValueMatch] at h4
    | str value =>
      simp only [addressValueMatch] at h4
      split at h4
      · rw [Option.some_inj] at h4
        exact ⟨_, h4.symm⟩
      · simp at h4

theorem interfaceNameApply_some {context : HeuristicContext} {r : HeuristicResult}
    (h : interfaceNameApply context = some r) :
    r = { «matches» := interfaceNameMatches context.discovered.entries
            (strDrop1 context.call.interfaceType)
          confidence := interfaceNameConfidence (interfaceNameMatches
            context.discovered.entries (strDrop1 context.call.interfaceType)).length } ∧
    interfaceNameMatches context.discovered.entries
      (strDrop1 context.call.interfaceType) ≠ [] := by
  simp only [interfaceNameApply] at h
  split at h
  · simp at h
  · split at h
    · simp at h
    · rename_i hguard hne
      rw [Option.some_inj] at h
      refine ⟨h.symm, ?_⟩
      simpa using hne

theorem functionSignatureApply_some {context : HeuristicContext} {r : HeuristicResult}
    (h : functionSignatureApply context = some r) :
    r = { «matches» := functionSignatureMatches context.discovered
            context.call.calledFunction
          confidence := functionSignatureConfidence (functionSignatureMatches
            context.discovered context.call.calledFunction).length } ∧
    functionSignatureMatches context.discovered context.call.calledFunction ≠ [] := by
  simp only [functionSignatureApply] at h
  split at h
  · simp at h
  · rename_i hne
    rw [Option.some_inj] at h
    refine ⟨h.symm, ?_⟩
    simpa using hne

/-- C2: whenever a heuristic returns a result its confidence is the fixed step
function of its match count; the step functions take exactly the specified
values: function-signature 1, 2, at least 3 matches give 99, 50, 30;
interface-name 1, 2, at least 3 matches give 90, 60, 40; variable-chain is
always 100. -/
theorem confidence_step_functions :
    (∀ (context : HeuristicContext) (r : HeuristicResult),
        variableChainApply context = some r → r.confidence = 100) ∧
    (∀ (context : HeuristicContext) (r : HeuristicResult),
        interfaceNameApply context = some r →
        r.confidence = interfaceNameConfidence r.«matches».length) ∧
    (∀ (context : HeuristicContext) (r : HeuristicResult),
        functionSignatureApply context = some r →
        r.confidence = functionSignatureConfidence r.«matches».length) ∧
    functionSignatureConfidence 1 = 99 ∧ functionSignatureConfidence 2 = 50 ∧
    (∀ n, 3 ≤ n → functionSignatureConfidence n = 30) ∧
    interfaceNameConfidence 1 = 90 ∧ interfaceNameConfidence 2 = 60 ∧
    (∀ n, 3 ≤ n → interfaceNameConfidence n = 40) := by
  refine ⟨?_, ?_, ?_, by decide, by decide, ?_, by decide, by decide, ?_⟩
  · intro context r h
    obtain ⟨m, rfl⟩ := variableChainApply_some h
    rfl
  · intro context r h
    obtain ⟨hr, _⟩ := interfaceNameApply_some h
    rw [hr]
  · intro context r h
    obtain ⟨hr, _⟩ := functionSignatureApply_some h
    rw [hr]
  · intro n hn
    have h1 : n ≠ 1 := by omega
    have h2 : n ≠ 2 := by omega
    simp [functionSignatureConfidence, h1, h2]
  · intro n hn
    have h1 : n ≠ 1 := by omega
    have h2 : n ≠ 2 := by omega
    simp [interfaceNameConfidence, h1, h2]

/-- Witness for C2 on the concrete scenario contexts and on match counts 5 and 7. -/
theorem confidence_step_functions_witness :
    (∃ r, variableChainApply ctxScenarioA = some r ∧ r.confidence = 100) ∧
    (∃ r, interfaceNameApply ctxScenarioB = some r ∧
        r.confidence = interfaceNameConfidence r.«matches».length) ∧
    (∃ r, functionSignatureApply ctxScenarioC = some r ∧
        r.confidence = functionSignatureConfidence r.«matches».length) ∧
    interfaceNameConfidence 5 = 40 ∧ functionSignatureConfidence 7 = 30 := by
  refine ⟨⟨{ «matches» := [{ address := "eth:0xABCD", contractName := some "TroveManager" }]
             confidence := 100 }, by decide,
           confidence_step_functions.1 ctxScenarioA _ (by decide)⟩,
          ⟨{ «matches» := [{ address := "eth:0x2", contractName := some "Vault" }]
             confidence := 90 }, by decide,
           confidence_step_functions.2.1 ctxScenarioB _ (by decide)⟩,
          ⟨{ «matches» := [{ address := "eth:0x2", contractName := some "Vault" }]
             confidence := 99 }, by decide,
           confidence_step_functions.2.2.1 ctxScenarioC _ (by decide)⟩,
          confidence_step_functions.2.2.2.2.2.2.2.2 5 (by omega),
          confidence_step_functions.2.2.2.2.2.1 7 (by omega)⟩

-- ===========================================================================
-- C6: variable-chain heuristic result shape
-- ===========================================================================

/-- C6: when the chain walk makes no progress the heuristic yields no result;
when it makes progress, the caller contract is found, and the resolved
variable's recorded value is an address-formatted string, the heuristic
returns exactly one match carrying that value as its address, with the name
of the graph entry found at that address by lowercased comparison — and when
no entry is found there, the match is returned with no contract name. -/
theorem variable_chain_resolved_value_match :
    (∀ context : HeuristicContext,
        resolveVariableChain context.variableAssignments maxChainDepth
          context.call.storageVariable = context.call.storageVariable →
        variableChainApply context = none) ∧
    (∀ (context : HeuristicContext) (contract : DiscoveredEntry)
        (vals : List (String × ContractValue)) (value : String),
        resolveVariableChain context.variableAssignments maxChainDepth
          context.call.storageVariable ≠ context.call.storageVariable →
        context.discovered.entries.find? (fun e =>
            lowerStr e.address == lowerStr context.callerContractAddress &&
            e.type == "Contract") = some contract →
        contract.values = some vals →
        lookupA vals (resolveVariableChain context.variableAssignments maxChainDepth
            context.call.storageVariable) = some (ContractValue.str value) →
        jsStartsWith value "eth:" = true →
        variableChainApply context =
          some { «matches» := [{ address := value
                                 contractName := (context.discovered.entries.find? (fun e =>
                                     lowerStr e.address == lowerStr value)).bind
                                   (fun e => e.name) }]
                 confidence := 100 } ∧
        (context.discovered.entries.find? (fun e =>
            lowerStr e.address == lowerStr value) = none →
          variableChainApply context =
            some { «matches» := [{ address := value, contractName := none }]
                   confidence := 100 })) := by
  constructor
  · intro context h
    simp [variableChainApply, h]
  · intro context contract vals value hprog hfind hvals hval haddr
    have happ : variableChainApply context =
        some { «matches» := [{ address := value
                               contractName := (context.discovered.entries.find? (fun e =>
                                   lowerStr e.address == lowerStr value)).bind
                                 (fun e => e.name) }]
               confidence := 100 } := by
      simp only [variableChainApply, hfind, Option.some_bind, hvals, hval,
        addressValueMatch, haddr, if_true]
      rw [if_neg hprog]
    refine ⟨happ, fun hnone => ?_⟩
    rw [happ, hnone]
    rfl

/-- Witness for C6 at the scenario-A context, and at the same context with the
graph entry for the resolved address removed. -/
theorem variable_chain_resolved_value_match_witness :
    (resolveVariableChain ctxScenarioA.variableAssignments maxChainDepth
        ctxScenarioA.call.storageVariable ≠ ctxScenarioA.call.storageVariable ∧
      variableChainApply ctxScenarioA =
        some { «matches» := [{ address := "eth:0xABCD"
                               contractName := (ctxScenarioA.discovered.entries.find? (fun e =>
                                   lowerStr e.address == lowerStr "eth:0xABCD")).bind
                                 (fun e => e.name) }]
               confidence := 100 }) ∧
    (ctxChainNoEntry.discovered.entries.find? (fun e =>
        lowerStr e.address == lowerStr "eth:0xABCD") = none ∧
      variableChainApply ctxChainNoEntry =
        some { «matches» := [{ address := "eth:0xABCD", contractName := none }]
               confidence := 100 }) := by
  refine ⟨⟨by decide, ?_⟩, ⟨by decide, ?_⟩⟩
  · exact (variable_chain_resolved_value_match.2 ctxScenarioA
      { address := "eth:0xcafe", name := some "BorrowerOps", type := "Contract",
        values := some [("troveManager", ContractValue.str "eth:0xABCD")] }
      [("troveManager", ContractValue.str "eth:0xABCD")] "eth:0xABCD"
      (by decide) (by decide) (by decide) (by decide) (by decide)).1
  · exact (variable_chain_resolved_value_match.2 ctxChainNoEntry
      { address := "eth:0xcafe", name := some "BorrowerOps", type := "Contract",
        values := some [("troveManager", ContractValue.str "eth:0xABCD")] }
      [("troveManager", ContractValue.str "eth:0xABCD")] "eth:0xABCD"
      (by decide) (by decide) (by decide) (by decide) (by decide)).2 (by decide)

-- ===========================================================================
-- C7: interface-name heuristic
-- ===========================================================================

theorem eq_I_of_startsWith_I_of_short (s : String)
    (hsw : jsStartsWith s "I" = true) (hlen : s.length ≤ 1) : s = "I" := by
  obtain ⟨d⟩ := s
  cases d with
  | nil => exact absurd hsw (by decide)
  | cons c cs =>
    have hc : ('I' == c && isPrefixB [] cs) = true := hsw
    have hc' : c = 'I' := by
      rcases Bool.and_eq_true_iff.mp hc with ⟨h1, _⟩
      exact (beq_iff_eq.mp h1).symm
    subst hc'
    have hsl : (String.mk ('I' :: cs)).length = cs.length + 1 := rfl
    have hlen' : cs.length = 0 := by omega
    have : cs = [] := List.eq_nil_of_length_eq_zero hlen'
    subst this
    rfl

theorem interfaceNameMatches_mem (entries : List DiscoveredEntry)
    (expected : String) (m : HeuristicMatch) :
    m ∈ interfaceNameMatches entries expected ↔
      ∃ e, e ∈ entries ∧ e.type = "Contract" ∧
        lowerStr (e.name.getD "") = lowerStr expected ∧
        m = { address := e.address, contractName := e.name } := by
  simp only [interfaceNameMatches, List.mem_filterMap]
  constructor
  · rintro ⟨e, he, hf⟩
    by_cases hc :
        (e.type == "Contract" && (lowerStr (e.name.getD "") == lowerStr expected)) = true
    · rw [if_pos hc, Option.some_inj] at hf
      rcases Bool.and_eq_true_iff.mp hc with ⟨h1, h2⟩
      exact ⟨e, he, beq_iff_eq.mp h1, beq_iff_eq.mp h2, hf.symm⟩
    · rw [if_neg hc] at hf
      exact absurd hf (by simp)
  · rintro ⟨e, he, ht, hn, rfl⟩
    exact ⟨e, he, by simp [ht, hn]⟩

/-- C7: when the call's interface type is exactly "I" or does not start with
"I", the interface-name heuristic returns no result; otherwise its candidate
matches are exactly the discovered entries of type "Contract" whose
(possibly absent, defaulted to empty) name equals the interface type with the
leading "I" removed, compared case-insensitively, and the heuristic returns
them exactly when at least one exists. -/
theorem interface_name_guard_and_matches (context : HeuristicContext) :
    (context.call.interfaceType = "I" ∨
        jsStartsWith context.call.interfaceType "I" = false →
      interfaceNameApply context = none) ∧
    (jsStartsWith context.call.interfaceType "I" = true →
     context.call.interfaceType ≠ "I" →
      (∀ m, m ∈ interfaceNameMatches context.discovered.entries
            (strDrop1 context.call.interfaceType) ↔
          ∃ e, e ∈ context.discovered.entries ∧ e.type = "Contract" ∧
            lowerStr (e.name.getD "") =
              lowerStr (strDrop1 context.call.interfaceType) ∧
            m = { address := e.address, contractName := e.name }) ∧
      (interfaceNameMatches context.discovered.entries
          (strDrop1 context.call.interfaceType) = [] →
        interfaceNameApply context = none) ∧
      (interfaceNameMatches context.discovered.entries
          (strDrop1 context.call.interfaceType) ≠ [] →
        interfaceNameApply context = some
          { «matches» := interfaceNameMatches context.discovered.entries
              (strDrop1 context.call.interfaceType)
            confidence := interfaceNameConfidence (interfaceNameMatches
              context.discovered.entries (strDrop1 context.call.interfaceType)).length })) := by
  constructor
  · intro h
    rcases h with heq | hsw
    · have h1 : jsStartsWith "I" "I" = true := by decide
      have h2 : ("I" : String).length = 1 := by decide
      simp [interfaceNameApply, heq, h1, h2]
    · simp [interfaceNameApply, hsw]
  · intro hsw hne
    have hlen : ¬(context.call.interfaceType.length ≤ 1) := fun hl =>
      hne (eq_I_of_startsWith_I_of_short _ hsw hl)
    refine ⟨fun m => interfaceNameMatches_mem _ _ m, fun hM => ?_, fun hM => ?_⟩
    · simp [interfaceNameApply, hsw, hlen, hM]
    · simp [interfaceNameApply, hsw, hlen,
        List.isEmpty_eq_false.mpr hM]

/-- Witness for C7: a bare "I" interface type yields no result, and "IVault"
collects exactly the discovered Vault contract. -/
theorem interface_name_guard_and_matches_witness :
    ctxGuardI.call.interfaceType = "I" ∧
    interfaceNameApply ctxGuardI = none ∧
    jsStartsWith ctxScenarioB.call.interfaceType "I" = true ∧
    ctxScenarioB.call.interfaceType ≠ "I" ∧
    interfaceNameMatches ctxScenarioB.discovered.entries
      (strDrop1 ctxScenarioB.call.interfaceType) ≠ [] ∧
    interfaceNameApply ctxScenarioB = some
      { «matches» := interfaceNameMatches ctxScenarioB.discovered.entries
          (strDrop1 ctxScenarioB.call.interfaceType)
        confidence := interfaceNameConfidence (interfaceNameMatches
          ctxScenarioB.discovered.entries
          (strDrop1 ctxScenarioB.call.interfaceType)).length } := by
  refine ⟨by decide, ?_, by decide, by decide, by decide, ?_⟩
  · exact (interface_name_guard_and_matches ctxGuardI).1 (Or.inl (by decide))
  · exact ((interface_name_guard_and_matches ctxScenarioB).2 (by decide)
      (by decide)).2.2 (by decide)

-- ===========================================================================
-- C8: function-signature heuristic
-- ===========================================================================

theorem functionSignatureMatches_mem (discovered : DiscoveryOutput)
    (functionName : String) (m : HeuristicMatch) :
    m ∈ functionSignatureMatches discovered functionName ↔
      ∃ e, e ∈ discovered.entries ∧ e.type = "Contract" ∧
        ∃ abi, lookupA discovered.abis e.address = some abi ∧
          (∃ abiEntry, abiEntry ∈ abi ∧
            extractFunctionName abiEntry = some functionName) ∧
          m = { address := e.address, contractName := e.name } := by
  simp only [functionSignatureMatches, List.mem_filterMap]
  constructor
  · rintro ⟨e, he, hf⟩
    split at hf
    · rename_i htype
      split at hf
      · exact absurd hf (by simp)
      · rename_i abi hlk
        split at hf
        · rename_i hany
          rw [Option.some_inj] at hf
          obtain ⟨abiEntry, hent, hext⟩ := List.any_eq_true.mp hany
          exact ⟨e, he, beq_iff_eq.mp htype, abi, hlk,
            ⟨abiEntry, hent, beq_iff_eq.mp hext⟩, hf.symm⟩
        · exact absurd hf (by simp)
    · exact absurd hf (by simp)
  · rintro ⟨e, he, ht, abi, hlk, ⟨abiEntry, hent, hext⟩, rfl⟩
    refine ⟨e, he, ?_⟩
    rw [if_pos (by simp [ht])]
    simp only [hlk]
    rw [if_pos (List.any_eq_true.mpr ⟨abiEntry, hent, by simp [hext]⟩)]

/-- C8: the function-signature heuristic's candidate matches are exactly the
discovered entries of type "Contract" whose recorded ABI contains an entry
whose extracted function name equals the called function (exact string
equality); ABI entries that do not start with the function keyword extract no
name and are never counted; the heuristic returns the candidates exactly when
at least one exists. -/
theorem function_signature_matches_spec (context : HeuristicContext) :
    (∀ m, m ∈ functionSignatureMatches context.discovered
          context.call.calledFunction ↔
        ∃ e, e ∈ context.discovered.entries ∧ e.type = "Contract" ∧
          ∃ abi, lookupA context.discovered.abis e.address = some abi ∧
            (∃ abiEntry, abiEntry ∈ abi ∧
              extractFunctionName abiEntry = some context.call.calledFunction) ∧
            m = { address := e.address, contractName := e.name }) ∧
    (∀ abiEntry, jsStartsWith abiEntry "function " = false →
        extractFunctionName abiEntry = none) ∧
    (functionSignatureMatches context.discovered context.call.calledFunction = [] →
        functionSignatureApply context = none) ∧
    (functionSignatureMatches context.discovered context.call.calledFunction ≠ [] →
        functionSignatureApply context = some
          { «matches» := functionSignatureMatches context.discovered
              context.call.calledFunction
            confidence := functionSignatureConfidence (functionSignatureMatches
              context.discovered context.call.calledFunction).length }) := by
  refine ⟨fun m => functionSignatureMatches_mem _ _ m, fun abiEntry h => ?_,
    fun hM => ?_, fun hM => ?_⟩
  · simp [extractFunctionName, h]
  · simp [functionSignatureApply, hM]
  · simp [functionSignatureApply, List.isEmpty_eq_false.mpr hM]

/-- Witness for C8: deposit is found in the discovered Vault's ABI; its event
entry extracts no function name. -/
theorem function_signature_matches_spec_witness :
    jsStartsWith "event Deposit(uint256)" "function " = false ∧
    extractFunctionName "event Deposit(uint256)" = none ∧
    functionSignatureMatches ctxScenarioC.discovered
      ctxScenarioC.call.calledFunction ≠ [] ∧
    functionSignatureApply ctxScenarioC = some
      { «matches» := functionSignatureMatches ctxScenarioC.discovered
          ctxScenarioC.call.calledFunction
        confidence := functionSignatureConfidence (functionSignatureMatches
          ctxScenarioC.discovered ctxScenarioC.call.calledFunction).length } := by
  refine ⟨by decide, ?_, by decide, ?_⟩
  · exact (function_signature_matches_spec ctxScenarioC).2.1
      "event Deposit(uint256)" (by decide)
  · exact (function_signature_matches_spec ctxScenarioC).2.2.2 (by decide)

-- ===========================================================================
-- C10: variable-chain address comparisons are case-insensitive
-- ===========================================================================

/-- C10: the variable-chain heuristic locates the caller contract and the
resolved value's graph entry by lowercased address equality: recasing the
caller address (keeping its lowercase form) or recasing every entry address of
the graph (keeping lowercase forms) leaves its resolution unchanged. -/
theorem variable_chain_case_insensitive :
    (∀ (context : HeuristicContext) (s : String),
        lowerStr s = lowerStr context.callerContractAddress →
        variableChainApply { context with callerContractAddress := s } =
          variableChainApply context) ∧
    (∀ (context : HeuristicContext) (f : String → String),
        (∀ a, lowerStr (f a) = lowerStr a) →
        variableChainApply { context with
            discovered := recaseEntryAddresses f context.discovered } =
          variableChainApply context) := by
  constructor
  · intro context s h
    simp only [variableChainApply, h]
  · intro context f hf
    have hpred : ((fun e => lowerStr e.address ==
          lowerStr context.callerContractAddress && e.type == "Contract") ∘
        (fun e => { e with address := f e.address })) =
        (fun (e : DiscoveredEntry) => lowerStr e.address ==
          lowerStr context.callerContractAddress && e.type == "Contract") := by
      funext e
      simp [Function.comp, hf]
    have hAVM : addressValueMatch (recaseEntryAddresses f context.discovered) =
        addressValueMatch context.discovered := by
      funext cv
      cases cv with
      | other => rfl
      | str value =>
        have hpred2 : ((fun e => lowerStr e.address == lowerStr value) ∘
            (fun e => { e with address := f e.address })) =
            (fun (e : DiscoveredEntry) =>
              lowerStr e.address == lowerStr value) := by
          funext e
          simp [Function.comp, hf]
        simp only [addressValueMatch, recaseEntryAddresses, List.find?_map, hpred2]
        cases hr : context.discovered.entries.find? (fun e =>
            lowerStr e.address == lowerStr value) with
        | none => rfl
        | some re => rfl
    by_cases hprog : resolveVariableChain context.variableAssignments maxChainDepth
        context.call.storageVariable = context.call.storageVariable
    · simp [variableChainApply, hprog]
    · simp only [variableChainApply, hAVM, if_neg hprog]
      simp only [recaseEntryAddresses, List.find?_map, hpred]
      cases hfind : context.discovered.entries.find? (fun e =>
          lowerStr e.address == lowerStr context.callerContractAddress &&
          e.type == "Contract") with
      | none => rfl
      | some contract => rfl

/-- Witness for C10 at the scenario-A context: upper-casing the caller address
and recasing the resolved entry's address leave the result unchanged. -/
theorem variable_chain_case_insensitive_witness :
    lowerStr "ETH:0XCAFE" = lowerStr ctxScenarioA.callerContractAddress ∧
    variableChainApply { ctxScenarioA with callerContractAddress := "ETH:0XCAFE" } =
      variableChainApply ctxScenarioA ∧
    variableChainApply { ctxScenarioA with
        discovered := recaseEntryAddresses recaseOne ctxScenarioA.discovered } =
      variableChainApply ctxScenarioA := by
  have hrec : ∀ a, lowerStr (recaseOne a) = lowerStr a := by
    intro a
    by_cases h : a = "eth:0xabcd"
    · subst h; decide
    · simp [recaseOne, h]
  exact ⟨by decide,
    variable_chain_case_insensitive.1 ctxScenarioA "ETH:0XCAFE" (by decide),
    variable_chain_case_insensitive.2 ctxScenarioA recaseOne hrec⟩

-- ===========================================================================
-- Engine selection lemmas
-- ===========================================================================

theorem insertByConf_head (x : ResolutionHeuristic × HeuristicResult)
    (l : List (ResolutionHeuristic × HeuristicResult)) :
    (insertByConf x l).head? =
      match l.head? with
      | none => some x
      | some y => if y.2.confidence > x.2.confidence then some y else some x := by
  cases l with
  | nil => rfl
  | cons y ys =>
    by_cases h : y.2.confidence > x.2.confidence
    · simp [insertByConf, h]
    · simp [insertByConf, h]

theorem sortByConfDesc_head (l : List (ResolutionHeuristic × HeuristicResult)) :
    (sortByConfDesc l).head? = firstMaxBy l := by
  induction l with
  | nil => rfl
  | cons x xs ih =>
    rw [sortByConfDesc, insertByConf_head, ih]
    rfl

theorem firstMaxBy_ne_none (x : ResolutionHeuristic × HeuristicResult)
    (xs : List (ResolutionHeuristic × HeuristicResult)) :
    firstMaxBy (x :: xs) ≠ none := by
  simp only [firstMaxBy]
  cases firstMaxBy xs with
  | none => simp
  | some y => by_cases h : y.2.confidence > x.2.confidence <;> simp [h]

theorem firstMaxBy_eq_none_iff (l : List (ResolutionHeuristic × HeuristicResult)) :
    firstMaxBy l = none ↔ l = [] := by
  cases l with
  | nil => simp [firstMaxBy]
  | cons x xs =>
    constructor
    · intro h
      exact absurd h (firstMaxBy_ne_none x xs)
    · intro h
      exact absurd h (List.cons_ne_nil x xs)

theorem firstMaxBy_spec :
    ∀ (l : List (ResolutionHeuristic × HeuristicResult)) (w),
      firstMaxBy l = some w →
      w ∈ l ∧ (∀ r ∈ l, r.2.confidence ≤ w.2.confidence) ∧
      ∃ l₁ l₂, l = l₁ ++ w :: l₂ ∧ (∀ r ∈ l₁, r.2.confidence < w.2.confidence) := by
  intro l
  induction l with
  | nil => intro w h; simp [firstMaxBy] at h
  | cons x xs ih =>
    intro w h
    simp only [firstMaxBy] at h
    cases hm : firstMaxBy xs with
    | none =>
      simp only [hm] at h
      have hxs : xs = [] := (firstMaxBy_eq_none_iff xs).mp hm
      subst hxs
      obtain rfl : x = w := Option.some_inj.mp h
      exact ⟨List.mem_singleton_self x, by simp, [], [], rfl, by simp⟩
    | some y =>
      simp only [hm] at h
      obtain ⟨hymem, hybound, l₁, l₂, hdecomp, hlt⟩ := ih y hm
      by_cases hc : y.2.confidence > x.2.confidence
      · rw [if_pos hc] at h
        obtain rfl : y = w := Option.some_inj.mp h
        refine ⟨List.mem_cons_of_mem x hymem, ?_, x :: l₁, l₂, by simp [hdecomp], ?_⟩
        · intro r hr
          rcases List.mem_cons.mp hr with rfl | hr
          · omega
          · exact hybound r hr
        · intro r hr
          rcases List.mem_cons.mp hr with rfl | hr
          · exact hc
          · exact hlt r hr
      · rw [if_neg hc] at h
        obtain rfl : x = w := Option.some_inj.mp h
        refine ⟨List.mem_cons_self x xs, ?_, [], xs, rfl, by simp⟩
        intro r hr
        rcases List.mem_cons.mp hr with rfl | hr
        · exact Nat.le_refl _
        · have := hybound r hr
          omega

theorem resolve_decision (e : HeuristicEngine) (context : HeuristicContext) :
    (e.resolve context).1 =
      (firstMaxBy (runHeuristics e.heuristics context)).map toEngineResult := by
  simp only [HeuristicEngine.resolve]
  cases hs : sortByConfDesc (runHeuristics e.heuristics context) with
  | nil =>
    have hh := sortByConfDesc_head (runHeuristics e.heuristics context)
    rw [hs] at hh
    simp [← hh]
  | cons w rest =>
    have hh := sortByConfDesc_head (runHeuristics e.heuristics context)
    rw [hs] at hh
    simp [← hh]

-- ===========================================================================
-- C1: highest confidence wins, earliest registration breaks ties
-- ===========================================================================

/-- C1: whenever the collected results (in registration order) are non-empty,
the engine's decision is built from a result w such that every collected
result has confidence at most w's, and every result collected before w
(registered earlier and tied or not) has strictly smaller confidence — so w
has the highest confidence and, among results tying on that confidence, comes
from the earliest-registered heuristic. -/
theorem engine_selects_highest_confidence (e : HeuristicEngine)
    (context : HeuristicContext)
    (hne : runHeuristics e.heuristics context ≠ []) :
    ∃ w l₁ l₂,
      runHeuristics e.heuristics context = l₁ ++ w :: l₂ ∧
      (∀ r ∈ l₁, r.2.confidence < w.2.confidence) ∧
      (∀ r ∈ runHeuristics e.heuristics context,
        r.2.confidence ≤ w.2.confidence) ∧
      (e.resolve context).1 = some (toEngineResult w) := by
  cases hw : firstMaxBy (runHeuristics e.heuristics context) with
  | none => exact absurd ((firstMaxBy_eq_none_iff _).mp hw) hne
  | some w =>
    obtain ⟨hmem, hbound, l₁, l₂, hdecomp, hlt⟩ := firstMaxBy_spec _ w hw
    refine ⟨w, l₁, l₂, hdecomp, hlt, hbound, ?_⟩
    rw [resolve_decision, hw]
    rfl

/-- Witness for C1 on an engine with two heuristics tied at confidence 70:
the decision comes from the earlier-registered one (tied-a). -/
theorem engine_selects_highest_confidence_witness :
    runHeuristics tiedEngine.heuristics plainCtx ≠ [] ∧
    (∃ w l₁ l₂,
      runHeuristics tiedEngine.heuristics plainCtx = l₁ ++ w :: l₂ ∧
      (∀ r ∈ l₁, r.2.confidence < w.2.confidence) ∧
      (∀ r ∈ runHeuristics tiedEngine.heuristics plainCtx,
        r.2.confidence ≤ w.2.confidence) ∧
      (tiedEngine.resolve plainCtx).1 = some (toEngineResult w)) ∧
    (tiedEngine.resolve plainCtx).1 = some
      { heuristicName := "tied-a"
        «matches» := [{ address := "eth:0xa", contractName := none }]
        confidence := 70 } := by
  have hne : runHeuristics tiedEngine.heuristics plainCtx ≠ [] := by
    intro h
    exact absurd h (List.cons_ne_nil _ _)
  exact ⟨hne, engine_selects_highest_confidence tiedEngine plainCtx hne, by decide⟩

-- ===========================================================================
-- C3: resolve and resolveAsync coincide
-- ===========================================================================

/-- C3: the synchronous resolve and the suspending resolveAsync produce the
same decision (same winning heuristic name, same ordered matches, same
confidence) and the same trace lines in the same order for every engine and
context. -/
theorem resolve_async_equals_resolve (e : HeuristicEngine)
    (context : HeuristicContext) :
    e.resolveAsync context = e.resolve context := rfl

-- ===========================================================================
-- C5: unresolved outcome and non-empty matches
-- ===========================================================================

/-- C5: when no registered heuristic produces a result the engine's decision
is absent (no synthesized guess); when the registered heuristics only ever
produce results with at least one match and some heuristic produces a result,
the decision exists and its match list is non-empty; and the three default
heuristics indeed only produce results with at least one match. -/
theorem resolve_unresolved_or_nonempty :
    (∀ (e : HeuristicEngine) (context : HeuristicContext),
        (∀ h ∈ e.heuristics, h.apply context = none) →
        (e.resolve context).1 = none) ∧
    (∀ (e : HeuristicEngine) (context : HeuristicContext),
        (∀ h ∈ e.heuristics, ∀ r, h.apply context = some r → r.«matches» ≠ []) →
        (∃ h, h ∈ e.heuristics ∧ h.apply context ≠ none) →
        ∃ d, (e.resolve context).1 = some d ∧ d.«matches» ≠ []) ∧
    (∀ context : HeuristicContext, ∀ h ∈ createHeuristicEngine.heuristics, ∀ r,
        h.apply context = some r → r.«matches» ≠ []) := by
  refine ⟨?_, ?_, ?_⟩
  · intro e context hnone
    have hempty : runHeuristics e.heuristics context = [] := by
      apply List.filterMap_eq_nil_iff.mpr
      intro h hm
      simp [hnone h hm]
    rw [resolve_decision, hempty]
    rfl
  · intro e context hinv ⟨h, hmem, hne⟩
    have hne' : runHeuristics e.heuristics context ≠ [] := by
      intro hemp
      have := List.filterMap_eq_nil_iff.mp hemp h hmem
      exact hne (by simpa using this)
    cases hw : firstMaxBy (runHeuristics e.heuristics context) with
    | none => exact absurd ((firstMaxBy_eq_none_iff _).mp hw) hne'
    | some w =>
      have hwmem := (firstMaxBy_spec _ w hw).1
      obtain ⟨a, ha, hfa⟩ := List.mem_filterMap.mp hwmem
      obtain ⟨hh1, happly⟩ : a = w.1 ∧ a.apply context = some w.2 := by
        cases hap : a.apply context with
        | none => rw [hap] at hfa; simp at hfa
        | some r =>
          rw [hap] at hfa
          simp only [Option.map_some', Option.some_inj] at hfa
          exact ⟨congrArg Prod.fst hfa, congrArg (fun z => some z.2) hfa⟩
      refine ⟨toEngineResult w, ?_, ?_⟩
      · rw [resolve_decision, hw]
        rfl
      · have hmat := hinv w.1 (hh1 ▸ ha) w.2 (hh1 ▸ happly)
        simp only [toEngineResult, ne_eq, List.map_eq_nil_iff]
        exact hmat
  · intro context h hmem r happ
    have hlist : createHeuristicEngine.heuristics =
        [variableChainHeuristic, interfaceNameHeuristic,
          functionSignatureHeuristic] := rfl
    rw [hlist] at hmem
    rcases List.mem_cons.mp hmem with rfl | hmem
    · obtain ⟨m, rfl⟩ := variableChainApply_some happ
      simp
    · rcases List.mem_cons.mp hmem with rfl | hmem
      · obtain ⟨hr, hne⟩ := interfaceNameApply_some happ
        rw [hr]
        simpa using hne
      · rcases List.mem_cons.mp hmem with rfl | hmem
        · obtain ⟨hr, hne⟩ := functionSignatureApply_some happ
          rw [hr]
          simpa using hne
        · exact absurd hmem (List.not_mem_nil h)

/-- Witness for C5: on the empty-graph context the default engine resolves to
nothing, and on the scenario-B context it produces a decision with a
non-empty match list. -/
theorem resolve_unresolved_or_nonempty_witness :
    (createHeuristicEngine.resolve plainCtx).1 = none ∧
    (∃ d, (createHeuristicEngine.resolve ctxScenarioB).1 = some d ∧
      d.«matches» ≠ []) := by
  constructor
  · apply resolve_unresolved_or_nonempty.1
    intro h hmem
    have hlist : createHeuristicEngine.heuristics =
        [variableChainHeuristic, interfaceNameHeuristic,
          functionSignatureHeuristic] := rfl
    rw [hlist] at hmem
    rcases List.mem_cons.mp hmem with rfl | hmem
    · decide
    · rcases List.mem_cons.mp hmem with rfl | hmem
      · decide
      · rcases List.mem_cons.mp hmem with rfl | hmem
        · decide
        · exact absurd hmem (List.not_mem_nil h)
  · apply resolve_unresolved_or_nonempty.2.1 createHeuristicEngine ctxScenarioB
      (fun h hmem r happ =>
        resolve_unresolved_or_nonempty.2.2 ctxScenarioB h hmem r happ)
    exact ⟨interfaceNameHeuristic,
      by
        have hlist : createHeuristicEngine.heuristics =
            [variableChainHeuristic, interfaceNameHeuristic,
              functionSignatureHeuristic] := rfl
        rw [hlist]
        exact List.mem_cons_of_mem _ (List.mem_cons_self _ _),
      by decide⟩

-- ===========================================================================
-- Acceptance scenarios of the specification (supporting checks)
-- ===========================================================================

/-- Scenario A: the cached trove-manager call resolves through the chain to
the discovered TroveManager with confidence 100. -/
theorem scenario_a_variable_chain :
    (createHeuristicEngine.resolve ctxScenarioA).1 =
      some { heuristicName := "variable-chain"
             «matches» := [{ address := "eth:0xABCD",
                             contractName := some "TroveManager" }]
             confidence := 100 } := by decide

/-- Scenario B: the IVault call resolves by interface name to the single
Vault contract with confidence 90. -/
theorem scenario_b_interface_name :
    (createHeuristicEngine.resolve ctxScenarioB).1 =
      some { heuristicName := "interface-name"
             «matches» := [{ address := "eth:0x2", contractName := some "Vault" }]
             confidence := 90 } := by decide

/-- Scenario C-like check: a deposit call with no chain and no interface match
resolves by function signature with one match at confidence 99. -/
theorem scenario_c_function_signature :
    (createHeuristicEngine.resolve ctxScenarioC).1 =
      some { heuristicName := "function-signature"
             «matches» := [{ address := "eth:0x2", contractName := some "Vault" }]
             confidence := 99 } := by decide

/-- Scenario D: when nothing matches, the outcome is unresolved and the trace
ends with the no-winner line. -/
theorem scenario_d_unresolved :
    (createHeuristicEngine.resolve plainCtx).1 = none ∧
    (createHeuristicEngine.resolve plainCtx).2 =
      [ "    Resolving: v → f() [X]",
        "      - variable-chain: no match",
        "      - interface-name: no match",
        "      - function-signature: no match",
        "      Winner: none" ] := by
  exact ⟨by decide, by decide⟩

end DefiDisco
